import Mathlib

/-!
Verification of the valence wire-level codec layer: a shallow embedding of
the `IdOr` registry-reference codec (`crates/valence_protocol/src/id_or.rs`),
the NBT binary decoder (`crates/valence_nbt/src/binary/decode.rs`) and the
command-graph `Node`/`Parser` codec
(`crates/valence_protocol/src/packets/play/commands_s2c.rs`).

Byte buffers are modelled as `List Nat` (each element one octet); every
decoder is a function from the input buffer to `Except` of an error or a
value paired with the remaining buffer, mirroring the Rust functions that
take `&mut &[u8]` and advance the slice.  Machine integers are modelled as
`Nat`/`Int` with explicit reductions modulo `2^w` where the source performs
fixed-width arithmetic.
-/

deriving instance DecidableEq for Except

namespace Valence

/-- A byte buffer: the `&[u8]` slices the Rust decoders consume. -/
abbrev Bytes := List Nat

/-! ## Fixed-width integer views -/

/-- Interpret `v` (a `w`-bit pattern) as a signed two's-complement integer,
as Rust does when it reads an `i8`/`i16`/`i32`/`i64`. -/
def toSigned (w : Nat) (v : Nat) : Int :=
  if v % 2 ^ w < 2 ^ (w - 1) then ((v % 2 ^ w : Nat) : Int)
  else ((v % 2 ^ w : Nat) : Int) - 2 ^ w

/-- The 32-bit unsigned pattern of an integer (Rust `as u32` / wrapping). -/
def toU32 (i : Int) : Nat := (i % 2 ^ 32).toNat

/-- The 64-bit unsigned pattern of an integer. -/
def toU64 (i : Int) : Nat := (i % 2 ^ 64).toNat

/-- Wrapping 32-bit signed arithmetic (Rust release-mode overflow). -/
def wrap32 (i : Int) : Int := toSigned 32 (toU32 i)

/-- Big-endian value of a byte run (most significant byte first). -/
def beNat (l : Bytes) : Nat := l.foldl (fun a b => a * 256 + b % 256) 0

/-- Big-endian byte run of width `w` for the value `v` (low `8*w` bits). -/
def natToBytesBE : Nat → Nat → Bytes
  | 0, _ => []
  | w + 1, v => natToBytesBE w (v / 256) ++ [v % 256]

/-! ## Protocol-side errors

Errors raised by the packet codecs (`anyhow` errors in the source,
distinguished here by their message/site). -/

inductive PErr where
  /-- The reader ran off the end of the input slice. -/
  | endOfInput
  /-- `VarInt` continuation ran past 5 bytes (`VarIntTooLong`). -/
  | varIntTooLong
  /-- "unknown command parser ID of {n}" in `Parser::decode`. -/
  | unknownParserId (b : Nat)
  /-- "invalid node type of {n}" in `Node::decode`. -/
  | unknownNodeType (b : Nat)
  /-- "unknown command suggestion type" in `Node::decode`. -/
  | unknownSuggestionType
  /-- A boolean byte other than 0/1. -/
  | invalidBool (b : Nat)
  /-- An invalid discriminant for the `StringArg` sub-enum. -/
  | invalidStringArg (b : Nat)
  /-- A length-prefixed field with a negative or over-long declared length. -/
  | invalidStringLength (n : Nat)
  deriving DecidableEq, Repr

/-! ## VarInt codec

Modelled from the spec: `var_int.rs` is not among the supplied sources.
Per §4.3, a VarInt is a 1-5 byte, 7-bits-per-byte, continuation-bit
terminated little-endian-group encoding of a 32-bit integer; decoding a
sequence exceeding 5 continuation bytes fails with `VarIntTooLong`.
Values are carried as their unsigned 32-bit patterns (`Nat < 2^32`). -/

/-- Encoding loop: emit up to `k` 7-bit groups (5 suffice for any
32-bit value, the only values the codec produces). -/
def varIntEncodeAux : Nat → Nat → Bytes
  | 0, n => [n]
  | k + 1, n =>
    if n < 128 then [n]
    else (n % 128 + 128) :: varIntEncodeAux k (n / 128)

def varIntEncode (n : Nat) : Bytes := varIntEncodeAux 4 n

/-- Decoding loop: `k` groups may still be read, the next group lands at
bit position `shift`, `acc` holds the bits read so far. -/
def varIntDecodeAux : Nat → Nat → Nat → Bytes → Except PErr (Nat × Bytes)
  | 0, _, _, _ => .error .varIntTooLong
  | _ + 1, _, _, [] => .error .endOfInput
  | k + 1, shift, acc, b :: rest =>
    if b &&& 128 = 0 then .ok ((acc + (b &&& 127) * 2 ^ shift) % 2 ^ 32, rest)
    else varIntDecodeAux k (shift + 7) (acc + (b &&& 127) * 2 ^ shift) rest

def varIntDecode (b : Bytes) : Except PErr (Nat × Bytes) :=
  varIntDecodeAux 5 0 0 b

/-! ## IdOr codec

From `id_or.rs`.  The integer wire form (`RegistryId` and the `0`
sentinel) is modelled from the spec (§4.4): encode writes `VarInt(id + 1)`
for the `Id` case and `VarInt(0)` followed by the inline value's own
encoding for the `Inline` case.  The phantom variant falls into the
source's `_ => Ok(())` arm, which writes nothing. -/

inductive IdOr (T : Type) where
  | id (n : Int)
  | inline (t : T)
  | phantom
  deriving DecidableEq, Repr

def idOrEncode {T : Type} (encT : T → Bytes) : IdOr T → Bytes
  | .id n => varIntEncode (toU32 (n + 1))
  | .inline t => varIntEncode 0 ++ encT t
  | .phantom => []

def idOrDecode {T : Type} (decT : Bytes → Except PErr (T × Bytes)) (buf : Bytes) :
    Except PErr (IdOr T × Bytes) := do
  let (n, rest) ← varIntDecode buf
  if n = 0 then
    let (v, rest') ← decT rest
    .ok (.inline v, rest')
  else
    .ok (.id (wrap32 (toSigned 32 n - 1)), rest)

/-! ## NBT binary decoder

From `crates/valence_nbt/src/binary/decode.rs`.  The decoder is generic
over the string representation `S : FromModifiedUtf8`; here a decoded
string is its raw byte run and the conversion/validation step is an
arbitrary parameter `valid : Bytes → Bool` (mirroring the trait, whose
implementations delegate to the external `cesu8` crate).  The Rust
recursion is intrinsically terminating (every recursive call is behind at
least one consumed byte); the embedding threads an explicit `fuel`
counter, decremented at every mutually recursive call, with a dedicated
`fuelExhausted` error that the Rust code can never produce. -/

/-- The 13 NBT wire tags (`tag.rs`). -/
inductive Tag where
  | «end» | byte | short | int | long | float | double
  | byteArray | string | list | compound | intArray | longArray
  deriving DecidableEq, Repr

/-- Errors of the NBT decoder, one constructor per error site.  The
spec's `LengthError` category comprises `negativeLength` and
`lengthExceeds`. -/
inductive NErr where
  /-- A fixed-width read ran off the end of the input. -/
  | endOfInput
  /-- "invalid tag byte of {byte}". -/
  | invalidTag (b : Nat)
  /-- "expected root tag for compound (got ...)". -/
  | rootTagMismatch (t : Tag)
  /-- "reached maximum recursion depth". -/
  | maxDepthExceeded
  /-- "negative ... length of {len}". -/
  | negativeLength (len : Int)
  /-- "... of length {len} exceeds remainder of input". -/
  | lengthExceeds (len : Int)
  /-- "TAG_End list with nonzero length of {len}". -/
  | nonZeroEndList (len : Int)
  /-- "could not decode modified UTF-8 data". -/
  | stringDecodeError
  /-- Artifact of the fuel embedding; unreachable for sufficient fuel. -/
  | fuelExhausted
  /-- `read_value` called with `Tag::End` (an `unreachable!` in the source). -/
  | illegalEndTag
  deriving DecidableEq, Repr

/-- Whether an error falls in the spec's `LengthError` category. -/
def NErr.isLengthError : NErr → Bool
  | .negativeLength _ => true
  | .lengthExceeds _ => true
  | _ => false

/-- `read_tag`: one byte, codes 0-12, anything else is `invalidTag`. -/
def readTagN : Bytes → Except NErr (Tag × Bytes)
  | [] => .error .endOfInput
  | b :: rest =>
    match b with
    | 0 => .ok (.end, rest)
    | 1 => .ok (.byte, rest)
    | 2 => .ok (.short, rest)
    | 3 => .ok (.int, rest)
    | 4 => .ok (.long, rest)
    | 5 => .ok (.float, rest)
    | 6 => .ok (.double, rest)
    | 7 => .ok (.byteArray, rest)
    | 8 => .ok (.string, rest)
    | 9 => .ok (.list, rest)
    | 10 => .ok (.compound, rest)
    | 11 => .ok (.intArray, rest)
    | 12 => .ok (.longArray, rest)
    | b => .error (.invalidTag b)

/-- Read exactly `n` raw bytes (the `byteorder` fixed-width reads fail
with an end-of-input error when fewer remain). -/
def readBytesN (n : Nat) (b : Bytes) : Except NErr (Bytes × Bytes) :=
  if n ≤ b.length then .ok (b.take n, b.drop n) else .error .endOfInput

/-- `read_i8`. -/
def readI8 (b : Bytes) : Except NErr (Int × Bytes) :=
  (readBytesN 1 b).map fun (l, r) => (toSigned 8 (beNat l), r)

/-- `read_i16::<BigEndian>`. -/
def readI16 (b : Bytes) : Except NErr (Int × Bytes) :=
  (readBytesN 2 b).map fun (l, r) => (toSigned 16 (beNat l), r)

/-- `read_i32::<BigEndian>` (also `read_int`). -/
def readI32 (b : Bytes) : Except NErr (Int × Bytes) :=
  (readBytesN 4 b).map fun (l, r) => (toSigned 32 (beNat l), r)

/-- `read_i64::<BigEndian>` (also `read_long`). -/
def readI64 (b : Bytes) : Except NErr (Int × Bytes) :=
  (readBytesN 8 b).map fun (l, r) => (toSigned 64 (beNat l), r)

/-- `read_u16::<BigEndian>` (string length prefix). -/
def readU16 (b : Bytes) : Except NErr (Nat × Bytes) :=
  (readBytesN 2 b).map fun (l, r) => (beNat l, r)

/-- `read_f32::<BigEndian>`: the raw 4-byte bit pattern (floating-point
semantics are never needed by the decoder). -/
def readF32bits (b : Bytes) : Except NErr (Nat × Bytes) :=
  (readBytesN 4 b).map fun (l, r) => (beNat l, r)

/-- `read_f64::<BigEndian>`: the raw 8-byte bit pattern. -/
def readF64bits (b : Bytes) : Except NErr (Nat × Bytes) :=
  (readBytesN 8 b).map fun (l, r) => (beNat l, r)

/-- `read_byte_array`: i32 length, negative check, remaining-input check,
then the raw bytes reinterpreted as `i8`. -/
def readByteArray (b : Bytes) : Except NErr (List Int × Bytes) := do
  let (len, r) ← readI32 b
  if len < 0 then .error (.negativeLength len)
  else if len.toNat > r.length then .error (.lengthExceeds len)
  else .ok ((r.take len.toNat).map (fun x => toSigned 8 x), r.drop len.toNat)

/-- `read_string`: u16 length (unsigned, so never negative), bound check
against the remaining input, then the modified-UTF-8 validation supplied
by the string representation. -/
def readString (valid : Bytes → Bool) (b : Bytes) : Except NErr (Bytes × Bytes) := do
  let (len, r) ← readU16 b
  if len > r.length then .error (.lengthExceeds (len : Int))
  else if valid (r.take len) then .ok (r.take len, r.drop len)
  else .error .stringDecodeError

/-- The element loop shared by arrays and lists (`for _ in 0..len`). -/
def readCount {α : Type} (reader : Bytes → Except NErr (α × Bytes)) :
    Nat → Bytes → Except NErr (List α × Bytes)
  | 0, b => .ok ([], b)
  | n + 1, b => do
    let (x, r) ← reader b
    let (xs, r') ← readCount reader n r
    .ok (x :: xs, r')

/-- `read_int_array`: i32 length, negative check, `len * 4` (64-bit, so
overflow-free) bound check, then `len` big-endian i32 reads. -/
def readIntArray (b : Bytes) : Except NErr (List Int × Bytes) := do
  let (len, r) ← readI32 b
  if len < 0 then .error (.negativeLength len)
  else if len.toNat * 4 > r.length then .error (.lengthExceeds len)
  else readCount readI32 len.toNat r

/-- `read_long_array`: as `read_int_array` with `len * 8`. -/
def readLongArray (b : Bytes) : Except NErr (List Int × Bytes) := do
  let (len, r) ← readI32 b
  if len < 0 then .error (.negativeLength len)
  else if len.toNat * 8 > r.length then .error (.lengthExceeds len)
  else readCount readI64 len.toNat r

/-- `read_list` for a non-recursive element reader: i32 length, negative
check, `len * elem_size` (64-bit) bound check, then the element loop.
The recursive List/Compound element kinds inline the same steps inside
the mutual block below. -/
def readListPrim {α : Type} (elemSize : Nat)
    (reader : Bytes → Except NErr (α × Bytes)) (b : Bytes) :
    Except NErr (List α × Bytes) := do
  let (len, r) ← readI32 b
  if len < 0 then .error (.negativeLength len)
  else if len.toNat * elemSize > r.length then .error (.lengthExceeds len)
  else readCount reader len.toNat r

/-- An NBT compound: ordered key/value entries (`Compound<S>`). -/
abbrev NEntries (V : Type) := List (Bytes × V)

mutual
/-- `Value<S>`: the tagged union over the non-End tags.  Floats and
doubles carry their raw bit patterns. -/
inductive NValue where
  | byte (v : Int)
  | short (v : Int)
  | int (v : Int)
  | long (v : Int)
  | float (bits : Nat)
  | double (bits : Nat)
  | byteArray (v : List Int)
  | string (v : Bytes)
  | list (v : NList)
  | compound (v : List (Bytes × NValue))
  | intArray (v : List Int)
  | longArray (v : List Int)

/-- `List<S>`: a homogeneous list, one constructor per element kind, or
the explicit empty `End` list. -/
inductive NList where
  | «end»
  | byte (v : List Int)
  | short (v : List Int)
  | int (v : List Int)
  | long (v : List Int)
  | float (v : List Nat)
  | double (v : List Nat)
  | byteArray (v : List (List Int))
  | string (v : List Bytes)
  | list (v : List NList)
  | compound (v : List (List (Bytes × NValue)))
  | intArray (v : List (List Int))
  | longArray (v : List (List Int))
end

/-- `Compound::insert`: replace the value of an existing key in place,
otherwise append (insertion-order map; the claims under proof do not
depend on entry ordering). -/
def compInsert (k : Bytes) (v : NValue) : NEntries NValue → NEntries NValue
  | [] => [(k, v)]
  | (k', v') :: rest =>
    if k' = k then (k', v) :: rest else (k', v') :: compInsert k v rest

/-- `MAX_DEPTH`: maximum recursion depth of the decoder. -/
def maxDepth : Nat := 512

mutual
/-- `read_value`: tag-directed dispatch.  The List and Compound arms go
through the depth guard (`check_depth`, inlined: the guard tests
`depth >= MAX_DEPTH` before anything else and runs the body at
`depth + 1`). -/
def readValue (valid : Bytes → Bool) :
    Nat → Nat → Tag → Bytes → Except NErr (NValue × Bytes)
  | 0, _, _, _ => .error .fuelExhausted
  | _ + 1, _, .end, _ => .error .illegalEndTag
  | _ + 1, _, .byte, b => (readI8 b).map fun (v, r) => (.byte v, r)
  | _ + 1, _, .short, b => (readI16 b).map fun (v, r) => (.short v, r)
  | _ + 1, _, .int, b => (readI32 b).map fun (v, r) => (.int v, r)
  | _ + 1, _, .long, b => (readI64 b).map fun (v, r) => (.long v, r)
  | _ + 1, _, .float, b => (readF32bits b).map fun (v, r) => (.float v, r)
  | _ + 1, _, .double, b => (readF64bits b).map fun (v, r) => (.double v, r)
  | _ + 1, _, .byteArray, b => (readByteArray b).map fun (v, r) => (.byteArray v, r)
  | _ + 1, _, .string, b => (readString valid b).map fun (v, r) => (.string v, r)
  | fuel + 1, depth, .list, b =>
    if depth ≥ maxDepth then .error .maxDepthExceeded
    else (readAnyList valid fuel (depth + 1) b).map fun (v, r) => (.list v, r)
  | fuel + 1, depth, .compound, b =>
    if depth ≥ maxDepth then .error .maxDepthExceeded
    else (readCompound valid fuel (depth + 1) b).map fun (v, r) => (.compound v, r)
  | _ + 1, _, .intArray, b => (readIntArray b).map fun (v, r) => (.intArray v, r)
  | _ + 1, _, .longArray, b => (readLongArray b).map fun (v, r) => (.longArray v, r)
  termination_by structural fuel _ _ _ => fuel

/-- `read_any_list`: element tag, then the per-kind list read.  An End
element tag admits only length zero; List and Compound elements recurse
through the depth guard around the whole length/loop read. -/
def readAnyList (valid : Bytes → Bool) :
    Nat → Nat → Bytes → Except NErr (NList × Bytes)
  | 0, _, _ => .error .fuelExhausted
  | fuel + 1, depth, b => do
    let (t, r) ← readTagN b
    match t with
    | .end => do
      let (len, r') ← readI32 r
      if len = 0 then .ok (.end, r')
      else .error (.nonZeroEndList len)
    | .byte => (readListPrim 1 readI8 r).map fun (v, r') => (.byte v, r')
    | .short => (readListPrim 2 readI16 r).map fun (v, r') => (.short v, r')
    | .int => (readListPrim 4 readI32 r).map fun (v, r') => (.int v, r')
    | .long => (readListPrim 8 readI64 r).map fun (v, r') => (.long v, r')
    | .float => (readListPrim 4 readF32bits r).map fun (v, r') => (.float v, r')
    | .double => (readListPrim 8 readF64bits r).map fun (v, r') => (.double v, r')
    | .byteArray => (readListPrim 0 readByteArray r).map fun (v, r') => (.byteArray v, r')
    | .string => (readListPrim 0 (readString valid) r).map fun (v, r') => (.string v, r')
    | .list =>
      if depth ≥ maxDepth then .error .maxDepthExceeded
      else do
        let (len, r') ← readI32 r
        if len < 0 then .error (.negativeLength len)
        else if len.toNat * 0 > r'.length then .error (.lengthExceeds len)
        else
          let (xs, r'') ← readListLoop valid fuel (depth + 1) len.toNat r'
          .ok (.list xs, r'')
    | .compound =>
      if depth ≥ maxDepth then .error .maxDepthExceeded
      else do
        let (len, r') ← readI32 r
        if len < 0 then .error (.negativeLength len)
        else if len.toNat * 0 > r'.length then .error (.lengthExceeds len)
        else
          let (xs, r'') ← readCompoundLoop valid fuel (depth + 1) len.toNat r'
          .ok (.compound xs, r'')
    | .intArray => (readListPrim 0 readIntArray r).map fun (v, r') => (.intArray v, r')
    | .longArray => (readListPrim 0 readLongArray r).map fun (v, r') => (.longArray v, r')
  termination_by structural fuel _ _ => fuel

/-- The element loop of `read_list` when the elements are lists. -/
def readListLoop (valid : Bytes → Bool) :
    Nat → Nat → Nat → Bytes → Except NErr (List NList × Bytes)
  | 0, _, _, _ => .error .fuelExhausted
  | _ + 1, _, 0, b => .ok ([], b)
  | fuel + 1, depth, n + 1, b => do
    let (x, r) ← readAnyList valid fuel depth b
    let (xs, r') ← readListLoop valid fuel depth n r
    .ok (x :: xs, r')
  termination_by structural fuel _ _ _ => fuel

/-- The element loop of `read_list` when the elements are compounds. -/
def readCompoundLoop (valid : Bytes → Bool) :
    Nat → Nat → Nat → Bytes → Except NErr (List (NEntries NValue) × Bytes)
  | 0, _, _, _ => .error .fuelExhausted
  | _ + 1, _, 0, b => .ok ([], b)
  | fuel + 1, depth, n + 1, b => do
    let (x, r) ← readCompound valid fuel depth b
    let (xs, r') ← readCompoundLoop valid fuel depth n r
    .ok (x :: xs, r')
  termination_by structural fuel _ _ _ => fuel

/-- `read_compound`: repeat (tag, key string, value) until an End tag;
duplicate keys overwrite through `compInsert`. -/
def readCompound (valid : Bytes → Bool) :
    Nat → Nat → Bytes → Except NErr (NEntries NValue × Bytes)
  | 0, _, _ => .error .fuelExhausted
  | fuel + 1, depth, b => readCompoundGo valid fuel depth [] b
  termination_by structural fuel _ _ => fuel

/-- The entry loop of `read_compound`. -/
def readCompoundGo (valid : Bytes → Bool) :
    Nat → Nat → NEntries NValue → Bytes → Except NErr (NEntries NValue × Bytes)
  | 0, _, _, _ => .error .fuelExhausted
  | fuel + 1, depth, acc, b => do
    let (t, r) ← readTagN b
    match t with
    | .end => .ok (acc, r)
    | t => do
      let (k, r') ← readString valid r
      let (v, r'') ← readValue valid fuel depth t r'
      readCompoundGo valid fuel depth (compInsert k v acc) r''
  termination_by structural fuel _ _ _ => fuel
end

/-- `from_binary`: root tag must be Compound; then the speculative peek
for the optional root name (a `read_string` attempt on a copied cursor,
committed only on success); then the root compound contents at depth 0.
`fuel` is the embedding's explicit recursion budget. -/
def fromBinary (valid : Bytes → Bool) (fuel : Nat) (b : Bytes) :
    Except NErr ((NEntries NValue × Option Bytes) × Bytes) := do
  let (rootTag, r) ← readTagN b
  if rootTag = Tag.compound then
    match readString valid r with
    | .ok (name, r') =>
      (readCompoundGo valid fuel 0 [] r').map fun (c, rest) => ((c, some name), rest)
    | .error _ =>
      (readCompoundGo valid fuel 0 [] r).map fun (c, rest) => ((c, none), rest)
  else .error (.rootTagMismatch rootTag)

/-! ## Command-graph Node / Parser codec

From `crates/valence_protocol/src/packets/play/commands_s2c.rs`.  The
auxiliary field codecs it relies on (`VarInt`, length-prefixed strings,
fixed-width scalars, `bool`, `Ident`, `Vec`) live outside the supplied
sources and are modelled from the spec (§4.3, §6). -/

/-- `u8::decode`: one byte. -/
def pReadU8 : Bytes → Except PErr (Nat × Bytes)
  | [] => .error .endOfInput
  | b :: rest => .ok (b, rest)

/-- Fixed-width byte run (protocol side). -/
def pReadBytesN (n : Nat) (b : Bytes) : Except PErr (Bytes × Bytes) :=
  if n ≤ b.length then .ok (b.take n, b.drop n) else .error .endOfInput

/-- Modelled from the spec (§4.3): fixed-width big-endian `i32` field. -/
def pReadI32 (b : Bytes) : Except PErr (Int × Bytes) :=
  (pReadBytesN 4 b).map fun (l, r) => (toSigned 32 (beNat l), r)

/-- Modelled from the spec (§4.3): fixed-width big-endian `i64` field. -/
def pReadI64 (b : Bytes) : Except PErr (Int × Bytes) :=
  (pReadBytesN 8 b).map fun (l, r) => (toSigned 64 (beNat l), r)

/-- Modelled from the spec (§4.3): big-endian `f32` field, kept as its
raw 4-byte bit pattern. -/
def pReadF32bits (b : Bytes) : Except PErr (Nat × Bytes) :=
  (pReadBytesN 4 b).map fun (l, r) => (beNat l, r)

/-- Modelled from the spec (§4.3): big-endian `f64` field as raw bits. -/
def pReadF64bits (b : Bytes) : Except PErr (Nat × Bytes) :=
  (pReadBytesN 8 b).map fun (l, r) => (beNat l, r)

/-- Modelled from the spec: `bool` field, one byte 0 or 1. -/
def pReadBool : Bytes → Except PErr (Bool × Bytes)
  | [] => .error .endOfInput
  | 0 :: rest => .ok (false, rest)
  | 1 :: rest => .ok (true, rest)
  | b :: _ => .error (.invalidBool b)

/-- Modelled from the spec (§4.3): fixed-width big-endian encodes. -/
def encI32 (v : Int) : Bytes := natToBytesBE 4 (toU32 v)

def encI64 (v : Int) : Bytes := natToBytesBE 8 (toU64 v)

def encF32bits (bits : Nat) : Bytes := natToBytesBE 4 bits

def encF64bits (bits : Nat) : Bytes := natToBytesBE 8 bits

def encBool (b : Bool) : Bytes := [if b then 1 else 0]

/-- Modelled from the spec (§6): a protocol string is a VarInt byte
length followed by the raw bytes (UTF-8 well-formedness is not needed by
any claim under proof). -/
def encStr (s : Bytes) : Bytes := varIntEncode s.length ++ s

def pReadStr (b : Bytes) : Except PErr (Bytes × Bytes) := do
  let (n, r) ← varIntDecode b
  if n ≥ 2 ^ 31 then .error (.invalidStringLength n)
  else if n > r.length then .error (.invalidStringLength n)
  else .ok (r.take n, r.drop n)

/-- ASCII bytes of a literal. -/
def strBytes (s : String) : Bytes := s.data.map Char.toNat

/-- Modelled from the spec: `Ident` decoding (the `valence_ident` crate,
outside the supplied sources) normalizes an identifier without a
namespace to the default `minecraft:` namespace — this is what lets the
five §6 suggestion identifiers, encoded without their namespace, decode
back to the namespaced names the source matches on. -/
def identNormalize (s : Bytes) : Bytes :=
  if s.contains 58 then s else strBytes "minecraft:" ++ s

def pReadIdent (b : Bytes) : Except PErr (Bytes × Bytes) :=
  (pReadStr b).map fun (s, r) => (identNormalize s, r)

def encIdent (s : Bytes) : Bytes := encStr s

/-- Modelled from the spec (§6): a `Vec<VarInt>` is a VarInt count
followed by that many VarInts. -/
def encVarIntList (xs : List Nat) : Bytes :=
  varIntEncode xs.length ++ xs.foldr (fun x acc => varIntEncode x ++ acc) []

def pReadVarIntLoop : Nat → Bytes → Except PErr (List Nat × Bytes)
  | 0, b => .ok ([], b)
  | n + 1, b => do
    let (x, r) ← varIntDecode b
    let (xs, r') ← pReadVarIntLoop n r
    .ok (x :: xs, r')

def pReadVarIntList (b : Bytes) : Except PErr (List Nat × Bytes) := do
  let (n, r) ← varIntDecode b
  if n ≥ 2 ^ 31 then .error (.invalidStringLength n)
  else pReadVarIntLoop n r

/-- `StringArg` (`#[derive(Encode, Decode)]` sub-enum of case 5; per the
spec, a 1-byte discriminant 0-2). -/
inductive StringArg where
  | singleWord | quotablePhrase | greedyPhrase
  deriving DecidableEq, Repr

def encStringArg : StringArg → Bytes
  | .singleWord => [0]
  | .quotablePhrase => [1]
  | .greedyPhrase => [2]

def pReadStringArg : Bytes → Except PErr (StringArg × Bytes)
  | [] => .error .endOfInput
  | 0 :: rest => .ok (.singleWord, rest)
  | 1 :: rest => .ok (.quotablePhrase, rest)
  | 2 :: rest => .ok (.greedyPhrase, rest)
  | b :: _ => .error (.invalidStringArg b)

/-- The five suggestion types. -/
inductive Suggestion where
  | askServer | allRecipes | availableSounds | availableBiomes | summonableEntities
  deriving DecidableEq, Repr

/-- The identifier the encoder writes for each suggestion type. -/
def suggestionName : Suggestion → String
  | .askServer => "ask_server"
  | .allRecipes => "all_recipes"
  | .availableSounds => "available_sounds"
  | .availableBiomes => "available_biomes"
  | .summonableEntities => "summonable_entities"

/-- The 48-case `Parser` enumeration.  Float/double bounds are carried
as raw bit patterns. -/
inductive Parser where
  | bool
  | float (min : Option Nat) (max : Option Nat)
  | double (min : Option Nat) (max : Option Nat)
  | integer (min : Option Int) (max : Option Int)
  | long (min : Option Int) (max : Option Int)
  | string (arg : StringArg)
  | entity (single : Bool) (onlyPlayers : Bool)
  | gameProfile
  | blockPos
  | columnPos
  | vec3
  | vec2
  | blockState
  | blockPredicate
  | itemStack
  | itemPredicate
  | color
  | component
  | message
  | nbtCompoundTag
  | nbtTag
  | nbtPath
  | objective
  | objectiveCriteria
  | operation
  | particle
  | angle
  | rotation
  | scoreboardSlot
  | scoreHolder (allowMultiple : Bool)
  | swizzle
  | team
  | itemSlot
  | resourceLocation
  | function
  | entityAnchor
  | intRange
  | floatRange
  | dimension
  | gameMode
  | time
  | resourceOrTag (registry : Bytes)
  | resourceOrTagKey (registry : Bytes)
  | resource (registry : Bytes)
  | resourceKey (registry : Bytes)
  | templateMirror
  | templateRotation
  | uuid
  deriving DecidableEq, Repr

/-- The min/max flag byte plus conditional payloads shared by the four
ranged parsers (`bit 0` = minimum present, `bit 1` = maximum present). -/
def encMinMax {α : Type} (enc : α → Bytes) (min max : Option α) : Bytes :=
  ((if min.isSome then 1 else 0) ||| (if max.isSome then 2 else 0)) ::
    ((match min with | some v => enc v | none => []) ++
     (match max with | some v => enc v | none => []))

/-- `decode_min_max`. -/
def decodeMinMax {α : Type} (dec : Bytes → Except PErr (α × Bytes)) (b : Bytes) :
    Except PErr ((Option α × Option α) × Bytes) := do
  let (flags, r) ← pReadU8 b
  let (min, r1) ←
    if flags &&& 1 ≠ 0 then (dec r).map fun (v, rr) => (some v, rr)
    else .ok (none, r)
  let (max, r2) ←
    if flags &&& 2 ≠ 0 then (dec r1).map fun (v, rr) => (some v, rr)
    else .ok (none, r1)
  .ok ((min, max), r2)

/-- `Parser::encode`: discriminant byte 0-47, then the case payload. -/
def parserEncode : Parser → Bytes
  | .bool => [0]
  | .float mn mx => 1 :: encMinMax encF32bits mn mx
  | .double mn mx => 2 :: encMinMax encF64bits mn mx
  | .integer mn mx => 3 :: encMinMax encI32 mn mx
  | .long mn mx => 4 :: encMinMax encI64 mn mx
  | .string arg => 5 :: encStringArg arg
  | .entity s op =>
    [6, (if s then 1 else 0) ||| (if op then 2 else 0)]
  | .gameProfile => [7]
  | .blockPos => [8]
  | .columnPos => [9]
  | .vec3 => [10]
  | .vec2 => [11]
  | .blockState => [12]
  | .blockPredicate => [13]
  | .itemStack => [14]
  | .itemPredicate => [15]
  | .color => [16]
  | .component => [17]
  | .message => [18]
  | .nbtCompoundTag => [19]
  | .nbtTag => [20]
  | .nbtPath => [21]
  | .objective => [22]
  | .objectiveCriteria => [23]
  | .operation => [24]
  | .particle => [25]
  | .angle => [26]
  | .rotation => [27]
  | .scoreboardSlot => [28]
  | .scoreHolder am => 29 :: encBool am
  | .swizzle => [30]
  | .team => [31]
  | .itemSlot => [32]
  | .resourceLocation => [33]
  | .function => [34]
  | .entityAnchor => [35]
  | .intRange => [36]
  | .floatRange => [37]
  | .dimension => [38]
  | .gameMode => [39]
  | .time => [40]
  | .resourceOrTag reg => 41 :: encIdent reg
  | .resourceOrTagKey reg => 42 :: encIdent reg
  | .resource reg => 43 :: encIdent reg
  | .resourceKey reg => 44 :: encIdent reg
  | .templateMirror => [45]
  | .templateRotation => [46]
  | .uuid => [47]

/-- `Parser::decode`: leading discriminant byte selects one of the 48
cases; anything else is `unknownParserId`. -/
def parserDecode (b : Bytes) : Except PErr (Parser × Bytes) := do
  let (d, r) ← pReadU8 b
  match d with
  | 0 => .ok (.bool, r)
  | 1 => (decodeMinMax pReadF32bits r).map fun (p, rr) => (.float p.1 p.2, rr)
  | 2 => (decodeMinMax pReadF64bits r).map fun (p, rr) => (.double p.1 p.2, rr)
  | 3 => (decodeMinMax pReadI32 r).map fun (p, rr) => (.integer p.1 p.2, rr)
  | 4 => (decodeMinMax pReadI64 r).map fun (p, rr) => (.long p.1 p.2, rr)
  | 5 => (pReadStringArg r).map fun (a, rr) => (.string a, rr)
  | 6 => do
    let (flags, rr) ← pReadU8 r
    .ok (.entity (flags &&& 1 ≠ 0) (flags &&& 2 ≠ 0), rr)
  | 7 => .ok (.gameProfile, r)
  | 8 => .ok (.blockPos, r)
  | 9 => .ok (.columnPos, r)
  | 10 => .ok (.vec3, r)
  | 11 => .ok (.vec2, r)
  | 12 => .ok (.blockState, r)
  | 13 => .ok (.blockPredicate, r)
  | 14 => .ok (.itemStack, r)
  | 15 => .ok (.itemPredicate, r)
  | 16 => .ok (.color, r)
  | 17 => .ok (.component, r)
  | 18 => .ok (.message, r)
  | 19 => .ok (.nbtCompoundTag, r)
  | 20 => .ok (.nbtTag, r)
  | 21 => .ok (.nbtPath, r)
  | 22 => .ok (.objective, r)
  | 23 => .ok (.objectiveCriteria, r)
  | 24 => .ok (.operation, r)
  | 25 => .ok (.particle, r)
  | 26 => .ok (.angle, r)
  | 27 => .ok (.rotation, r)
  | 28 => .ok (.scoreboardSlot, r)
  | 29 => (pReadBool r).map fun (v, rr) => (.scoreHolder v, rr)
  | 30 => .ok (.swizzle, r)
  | 31 => .ok (.team, r)
  | 32 => .ok (.itemSlot, r)
  | 33 => .ok (.resourceLocation, r)
  | 34 => .ok (.function, r)
  | 35 => .ok (.entityAnchor, r)
  | 36 => .ok (.intRange, r)
  | 37 => .ok (.floatRange, r)
  | 38 => .ok (.dimension, r)
  | 39 => .ok (.gameMode, r)
  | 40 => .ok (.time, r)
  | 41 => (pReadIdent r).map fun (s, rr) => (.resourceOrTag s, rr)
  | 42 => (pReadIdent r).map fun (s, rr) => (.resourceOrTagKey s, rr)
  | 43 => (pReadIdent r).map fun (s, rr) => (.resource s, rr)
  | 44 => (pReadIdent r).map fun (s, rr) => (.resourceKey s, rr)
  | 45 => .ok (.templateMirror, r)
  | 46 => .ok (.templateRotation, r)
  | 47 => .ok (.uuid, r)
  | n => .error (.unknownParserId n)

/-- `NodeData`: the kind payload of a command-graph node. -/
inductive NodeData where
  | root
  | literal (name : Bytes)
  | argument (name : Bytes) (parser : Parser) (suggestion : Option Suggestion)
  deriving DecidableEq, Repr

/-- A command-graph `Node`.  Children and the redirect index are VarInt
values, carried as their unsigned 32-bit patterns. -/
structure Node where
  data : NodeData
  executable : Bool
  children : List Nat
  redirectNode : Option Nat
  deriving DecidableEq, Repr

/-- `Node::encode`: the packed flag byte (bits 0-1 kind, 2 executable,
3 has-redirect, 4 has-suggestion), children, optional redirect, then the
kind payload. -/
def nodeEncode (n : Node) : Bytes :=
  let nodeType : Nat :=
    match n.data with
    | .root => 0
    | .literal _ => 1
    | .argument _ _ _ => 2
  let hasSuggestion : Bool :=
    match n.data with
    | .argument _ _ (some _) => true
    | _ => false
  let flags : Nat := nodeType ||| (if n.executable then 4 else 0) |||
    (if n.redirectNode.isSome then 8 else 0) ||| (if hasSuggestion then 16 else 0)
  flags :: (encVarIntList n.children ++
    (match n.redirectNode with
     | some v => varIntEncode v
     | none => []) ++
    (match n.data with
     | .root => []
     | .literal name => encStr name
     | .argument name parser suggestion =>
       encStr name ++ parserEncode parser ++
         (match suggestion with
          | some s => encStr (strBytes (suggestionName s))
          | none => [])))

/-- `Node::decode`: flag byte, children, optional redirect, then the
kind payload selected by the two low flag bits; kind `3` is rejected. -/
def nodeDecode (b : Bytes) : Except PErr (Node × Bytes) := do
  let (flags, r) ← pReadU8 b
  let (children, r1) ← pReadVarIntList r
  let (redirectNode, r2) ←
    if flags &&& 8 ≠ 0 then (varIntDecode r1).map fun (v, rr) => (some v, rr)
    else .ok (none, r1)
  match flags &&& 3 with
  | 0 =>
    .ok ({ data := .root, executable := flags &&& 4 ≠ 0,
           children := children, redirectNode := redirectNode }, r2)
  | 1 => do
    let (name, r3) ← pReadStr r2
    .ok ({ data := .literal name, executable := flags &&& 4 ≠ 0,
           children := children, redirectNode := redirectNode }, r3)
  | 2 => do
    let (name, r3) ← pReadStr r2
    let (parser, r4) ← parserDecode r3
    let (suggestion, r5) ←
      if flags &&& 16 ≠ 0 then do
        let (idt, r5) ← pReadIdent r4
        if idt = strBytes "minecraft:ask_server" then
          .ok (some Suggestion.askServer, r5)
        else if idt = strBytes "minecraft:all_recipes" then
          .ok (some Suggestion.allRecipes, r5)
        else if idt = strBytes "minecraft:available_sounds" then
          .ok (some Suggestion.availableSounds, r5)
        else if idt = strBytes "minecraft:available_biomes" then
          .ok (some Suggestion.availableBiomes, r5)
        else if idt = strBytes "minecraft:summonable_entities" then
          .ok (some Suggestion.summonableEntities, r5)
        else .error .unknownSuggestionType
      else .ok (none, r4)
    .ok ({ data := .argument name parser suggestion, executable := flags &&& 4 ≠ 0,
           children := children, redirectNode := redirectNode }, r5)
  | n => .error (.unknownNodeType n)

/-! ## Input families for the depth-bound claims -/

/-- A trivially accepting modified-UTF-8 validator (e.g. every key in the
inputs below is the empty string, which every representation accepts). -/
def validTrue : Bytes → Bool := fun _ => true

/-- The body of a chain of `n + 1` nested lists, as handed to
`read_any_list`: `n` levels of `List` element tag with declared length 1,
then an innermost empty End list. -/
def nest : Nat → Bytes
  | 0 => [0, 0, 0, 0, 0]
  | n + 1 => 9 :: 0 :: 0 :: 0 :: 1 :: nest n

/-- The value `nest n` decodes to. -/
def nestVal : Nat → NList
  | 0 => .end
  | n + 1 => .list [nestVal n]

/-- The body of a chain of `n + 1` nested compounds, as handed to
`read_compound`: `n` levels of a single entry (Compound tag, empty key,
nested body) closed by an End tag, then an innermost empty compound. -/
def cnest : Nat → Bytes
  | 0 => [0]
  | n + 1 => 10 :: 0 :: 0 :: (cnest n ++ [0])

/-- The entries `cnest n` decodes to. -/
def cval : Nat → NEntries NValue
  | 0 => []
  | n + 1 => [([], .compound (cval n))]

@[simp] theorem ebind_ok {ε α β : Type} (a : α) (f : α → Except ε β) :
    (Except.ok a >>= f) = f a := rfl

@[simp] theorem ebind_err {ε α β : Type} (e : ε) (f : α → Except ε β) :
    ((Except.error e : Except ε α) >>= f) = .error e := rfl

@[simp] theorem emap_ok {ε α β : Type} (f : α → β) (a : α) :
    Except.map f (.ok a : Except ε α) = .ok (f a) := rfl

@[simp] theorem emap_err {ε α β : Type} (f : α → β) (e : ε) :
    Except.map f (.error e : Except ε α) = .error e := rfl

theorem nest_zero (valid : Bytes → Bool) (e f : Nat) (rest : Bytes) :
    readAnyList valid (2 + f) e (nest 0 ++ rest) = .ok (nestVal 0, rest) := by
  rw [show (2 + f) = (1 + f) + 1 from by ring]
  simp [nest, nestVal, readAnyList, readTagN, readI32, readBytesN, beNat, toSigned]

theorem nest_ok (valid : Bytes → Bool) :
    ∀ k e f rest, e + k ≤ maxDepth →
      readAnyList valid (2 * k + 2 + f) e (nest k ++ rest) = .ok (nestVal k, rest) := by
  intro k
  induction k with
  | zero =>
    intro e f rest _
    rw [show (2 * 0 + 2 + f) = (1 + f) + 1 from by ring]
    simp [nest, nestVal, readAnyList, readTagN, readI32, readBytesN, beNat, toSigned]
  | succ k ih =>
    intro e f rest h
    have he : ¬ e ≥ maxDepth := by simp [maxDepth] at h ⊢; omega
    rw [show nest (k + 1) ++ rest = 9 :: 0 :: 0 :: 0 :: 1 :: (nest k ++ rest) by
      simp [nest]]
    rw [show 2 * (k + 1) + 2 + f = (2 * k + 3 + f) + 1 from by ring]
    simp only [readAnyList, readTagN, ebind_ok]
    rw [if_neg he]
    rw [show (2 * k + 3 + f) = (2 * k + 2 + f) + 1 from by ring]
    simp only [readI32, readBytesN, beNat, toSigned, List.take, List.drop,
      List.length_cons, emap_ok, ebind_ok]
    norm_num
    simp only [readListLoop]
    rw [ih (e + 1) f rest (by omega)]
    rw [show (2 * k + 2 + f) = (2 * k + 1 + f) + 1 from by ring]
    simp [readListLoop, nestVal]

theorem nest_err (valid : Bytes → Bool) :
    ∀ k e f rest, maxDepth ≤ e + k →
      readAnyList valid (2 * k + 2 + f) e (nest (k + 1) ++ rest) =
        .error .maxDepthExceeded := by
  intro k
  induction k with
  | zero =>
    intro e f rest h
    have he : e ≥ maxDepth := by omega
    rw [show nest 1 ++ rest = 9 :: 0 :: 0 :: 0 :: 1 :: (nest 0 ++ rest) by simp [nest]]
    rw [show (2 * 0 + 2 + f) = (1 + f) + 1 from by ring]
    simp only [readAnyList, readTagN, ebind_ok]
    rw [if_pos he]
  | succ k ih =>
    intro e f rest h
    rw [show nest (k + 2) ++ rest = 9 :: 0 :: 0 :: 0 :: 1 :: (nest (k + 1) ++ rest) by
      simp [nest]]
    rw [show 2 * (k + 1) + 2 + f = (2 * k + 3 + f) + 1 from by ring]
    simp only [readAnyList, readTagN, ebind_ok]
    by_cases he : e ≥ maxDepth
    · rw [if_pos he]
    · rw [if_neg he]
      rw [show (2 * k + 3 + f) = (2 * k + 2 + f) + 1 from by ring]
      simp only [readI32, readBytesN, beNat, toSigned, List.take, List.drop,
        List.length_cons, emap_ok, ebind_ok]
      norm_num
      simp only [readListLoop]
      rw [ih (e + 1) f rest (by omega)]
      rfl

theorem cnest_ok (valid : Bytes → Bool) (hv : valid [] = true) :
    ∀ k d f rest, d + k ≤ maxDepth - 1 →
      readValue valid (3 * k + 3 + f) d .compound (cnest k ++ rest) =
        .ok (.compound (cval k), rest) := by
  intro k
  induction k with
  | zero =>
    intro d f rest h
    have hd : ¬ d ≥ maxDepth := by simp [maxDepth] at h ⊢; omega
    rw [show (3 * 0 + 3 + f) = ((f + 1) + 1) + 1 from by ring]
    simp only [cnest, List.cons_append, List.nil_append, readValue]
    rw [if_neg hd]
    simp [readCompound, readCompoundGo, readTagN, cval]
  | succ k ih =>
    intro d f rest h
    have hd : ¬ d ≥ maxDepth := by simp [maxDepth] at h ⊢; omega
    rw [show cnest (k + 1) ++ rest = 10 :: 0 :: 0 :: (cnest k ++ ([0] ++ rest)) by
      simp [cnest]]
    rw [show 3 * (k + 1) + 3 + f = ((3 * k + 4 + f) + 1) + 1 from by ring]
    simp only [readValue]
    rw [if_neg hd]
    simp only [readCompound]
    rw [show (3 * k + 4 + f) = (3 * k + 3 + f) + 1 from by ring]
    simp only [readCompoundGo, readTagN, ebind_ok]
    simp only [readString, readU16, readBytesN, List.length_cons, List.take, List.drop,
      beNat, emap_ok, ebind_ok]
    norm_num
    rw [hv]
    simp only [if_true, ebind_ok]
    rw [ih (d + 1) f (0 :: rest) (by omega)]
    rw [show (3 * k + 3 + f) = (3 * k + 2 + f) + 1 from by ring]
    simp [readCompoundGo, readTagN, compInsert, cval]

theorem cnest_err (valid : Bytes → Bool) (hv : valid [] = true) :
    ∀ k d f rest, maxDepth ≤ d + k →
      readValue valid (3 * k + 3 + f) d .compound (cnest k ++ rest) =
        .error .maxDepthExceeded := by
  intro k
  induction k with
  | zero =>
    intro d f rest h
    have hd : d ≥ maxDepth := by omega
    rw [show (3 * 0 + 3 + f) = ((f + 1) + 1) + 1 from by ring]
    simp only [cnest, List.cons_append, List.nil_append, readValue]
    rw [if_pos hd]
  | succ k ih =>
    intro d f rest h
    rw [show cnest (k + 1) ++ rest = 10 :: 0 :: 0 :: (cnest k ++ ([0] ++ rest)) by
      simp [cnest]]
    rw [show 3 * (k + 1) + 3 + f = ((3 * k + 4 + f) + 1) + 1 from by ring]
    simp only [readValue]
    by_cases hd : d ≥ maxDepth
    · rw [if_pos hd]
    · rw [if_neg hd]
      simp only [readCompound]
      rw [show (3 * k + 4 + f) = (3 * k + 3 + f) + 1 from by ring]
      simp only [readCompoundGo, readTagN, ebind_ok]
      simp only [readString, readU16, readBytesN, List.length_cons, List.take, List.drop,
        beNat, emap_ok, ebind_ok]
      norm_num
      rw [hv]
      simp only [if_true, ebind_ok]
      rw [ih (d + 1) f (0 :: rest) (by omega)]
      rfl


/-! ## VarInt round-trip -/

theorem and127_eq_mod (n : Nat) : n &&& 127 = n % 128 :=
  Nat.and_pow_two_sub_one_eq_mod n 7

theorem and128_of_lt (a : Nat) (h : a < 128) : a &&& 128 = 0 := by
  rw [show (128 : Nat) = 2 ^ 7 from rfl, Nat.and_two_pow, Nat.testBit_to_div_mod]
  have h2 : a / 128 % 2 = 0 := by omega
  simp [h2]

theorem add128_and128 (a : Nat) (h : a < 128) : (a + 128) &&& 128 = 128 := by
  rw [show (128 : Nat) = 2 ^ 7 from rfl, Nat.and_two_pow, Nat.testBit_to_div_mod]
  have h2 : (a / 128 + 1) % 2 = 1 := by omega
  simp [h2]

theorem varIntDecodeAux_encodeAux :
    ∀ k shift acc n rest, n < 2 ^ (7 * (k + 1)) →
      varIntDecodeAux (k + 1) shift acc (varIntEncodeAux k n ++ rest) =
        .ok ((acc + n * 2 ^ shift) % 2 ^ 32, rest) := by
  intro k
  induction k with
  | zero =>
    intro shift acc n rest h
    have hn : n < 128 := by norm_num at h; omega
    simp only [varIntEncodeAux, List.cons_append, List.nil_append, varIntDecodeAux]
    rw [and128_of_lt n hn, if_pos rfl, and127_eq_mod, Nat.mod_eq_of_lt hn]
    rfl
  | succ k ih =>
    intro shift acc n rest h
    by_cases hn : n < 128
    · simp only [varIntEncodeAux, if_pos hn, List.cons_append, List.nil_append,
        varIntDecodeAux]
      rw [and128_of_lt n hn, if_pos rfl, and127_eq_mod, Nat.mod_eq_of_lt hn]
    · simp only [varIntEncodeAux, if_neg hn, List.cons_append, varIntDecodeAux]
      have hmod : n % 128 < 128 := Nat.mod_lt _ (by norm_num)
      rw [add128_and128 (n % 128) hmod]
      rw [if_neg (by norm_num), and127_eq_mod]
      have hm : (n % 128 + 128) % 128 = n % 128 := by omega
      rw [hm]
      have hdiv : n / 128 < 2 ^ (7 * (k + 1)) := by
        rw [Nat.div_lt_iff_lt_mul (by norm_num : (0:Nat) < 128)]
        calc n < 2 ^ (7 * (k + 1 + 1)) := h
        _ = 2 ^ (7 * (k + 1)) * 128 := by
          rw [show 7 * (k + 1 + 1) = 7 * (k + 1) + 7 from by ring, pow_add]
          norm_num
      rw [ih (shift + 7) (acc + n % 128 * 2 ^ shift) (n / 128) rest hdiv]
      congr 2
      have h128 : (2 : Nat) ^ (shift + 7) = 2 ^ shift * 128 := by
        rw [pow_add]; norm_num
      rw [h128, add_assoc]
      have : n % 128 * 2 ^ shift + n / 128 * (2 ^ shift * 128) =
          (n % 128 + 128 * (n / 128)) * 2 ^ shift := by ring
      rw [this, Nat.mod_add_div]

theorem varInt_roundtrip (n : Nat) (h : n < 2 ^ 32) (rest : Bytes) :
    varIntDecode (varIntEncode n ++ rest) = .ok (n, rest) := by
  have h' : n < 2 ^ (7 * (4 + 1)) := lt_of_lt_of_le h (by norm_num)
  have h2 := varIntDecodeAux_encodeAux 4 0 0 n rest h'
  have h3 : (0 + n * 2 ^ 0) % 2 ^ 32 = n := by
    simpa using Nat.mod_eq_of_lt h
  rw [varIntDecode, varIntEncode, h2, h3]

/-! ## Integer-view bounds -/

theorem toSigned32_bounds (n : Nat) :
    -(2 ^ 31) ≤ toSigned 32 n ∧ toSigned 32 n < 2 ^ 31 := by
  unfold toSigned
  have h1 : n % 2 ^ 32 < 2 ^ 32 := Nat.mod_lt _ (by norm_num)
  split <;> constructor <;> push_cast <;> omega

theorem wrap32_eq_self (i : Int) (h1 : -(2 ^ 31) ≤ i) (h2 : i < 2 ^ 31) :
    wrap32 i = i := by
  unfold wrap32 toU32 toSigned
  have hb : 0 ≤ i % 2 ^ 32 := Int.emod_nonneg i (by norm_num)
  have hb2 : i % 2 ^ 32 < 2 ^ 32 := Int.emod_lt_of_pos i (by norm_num)
  have hcase : i % 2 ^ 32 = i ∨ i % 2 ^ 32 = i + 2 ^ 32 := by omega
  split <;> push_cast <;> omega

theorem toSigned32_of_small (n : Nat) (h : n < 2 ^ 31) : toSigned 32 n = n := by
  unfold toSigned
  rw [Nat.mod_eq_of_lt (by omega)]
  rw [if_pos (by omega)]

theorem varIntDecodeAux_lt :
    ∀ k shift acc b n r, varIntDecodeAux k shift acc b = .ok (n, r) → n < 2 ^ 32 := by
  intro k
  induction k with
  | zero => intro shift acc b n r h; exact absurd h (by simp [varIntDecodeAux])
  | succ k ih =>
    intro shift acc b n r h
    cases b with
    | nil => exact absurd h (by simp [varIntDecodeAux])
    | cons x rest =>
      simp only [varIntDecodeAux] at h
      split at h
      · simp only [Except.ok.injEq, Prod.mk.injEq] at h
        rw [← h.1]
        exact Nat.mod_lt _ (by norm_num)
      · exact ih _ _ _ _ _ h

theorem varIntDecode_lt (b : Bytes) (n : Nat) (r : Bytes)
    (h : varIntDecode b = .ok (n, r)) : n < 2 ^ 32 :=
  varIntDecodeAux_lt 5 0 0 b n r h

/-- C1: encoding `IdOr::Id(N)` writes exactly the bytes of `VarInt(N+1)`
(so `Id(0)` encodes to `VarInt(1)`); encoding `IdOr::Inline(v)` writes
`VarInt(0)` followed by `v`'s own encoding; decoding a leading VarInt of
0 yields the `Inline` case (decoding the inline value next), and any
other VarInt value `N` yields `Id(N-1)` with no further bytes consumed
for that field. -/
theorem idOr_wire_contract {T : Type} (encT : T → Bytes)
    (decT : Bytes → Except PErr (T × Bytes)) :
    (∀ N : Int, 0 ≤ N → N + 1 < 2 ^ 31 →
      idOrEncode encT (.id N) = varIntEncode (N + 1).toNat) ∧
    (∀ t, idOrEncode encT (.inline t) = varIntEncode 0 ++ encT t) ∧
    (∀ buf rest, varIntDecode buf = .ok (0, rest) →
      idOrDecode decT buf =
        match decT rest with
        | .ok (v, r) => .ok (.inline v, r)
        | .error e => .error e) ∧
    (∀ buf n rest, varIntDecode buf = .ok (n, rest) → n ≠ 0 → n ≠ 2 ^ 31 →
      idOrDecode decT buf = .ok (.id (toSigned 32 n - 1), rest)) := by
  refine ⟨?_, ?_, ?_, ?_⟩
  · intro N h0 h1
    show varIntEncode (toU32 (N + 1)) = _
    unfold toU32
    rw [Int.emod_eq_of_lt (by omega) (by omega)]
  · intro t; rfl
  · intro buf rest h
    simp only [idOrDecode, h, ebind_ok]
    norm_num
    cases hd : decT rest with
    | ok p => cases p with | mk v r => simp
    | error e => simp
  · intro buf n rest h hn hs
    have hlt : n < 2 ^ 32 := varIntDecode_lt buf n rest h
    simp only [idOrDecode, h, ebind_ok]
    rw [if_neg hn]
    have hb := toSigned32_bounds n
    have hne : toSigned 32 n ≠ -(2 ^ 31) := by
      intro hc
      apply hs
      unfold toSigned at hc
      rw [Nat.mod_eq_of_lt hlt] at hc
      split at hc
      all_goals push_cast at hc
      all_goals omega
    rw [wrap32_eq_self _ (by omega) (by omega)]

/-- C1 witness: `Id(0)` encodes to the bytes of `VarInt(1)`, and a
buffer whose leading VarInt is 5 decodes to `Id(4)`. -/
theorem idOr_wire_contract_witness :
    idOrEncode encBool (.id 0) = varIntEncode ((0 : Int) + 1).toNat ∧
    idOrDecode pReadBool [5] = .ok (.id (toSigned 32 5 - 1), []) :=
  ⟨(idOr_wire_contract encBool pReadBool).1 0 (by decide) (by decide),
   (idOr_wire_contract encBool pReadBool).2.2.2 [5] 5 [] (by decide) (by decide)
     (by decide)⟩

/-- C9: a successful `IdOr::decode` only ever returns the `Id` or
`Inline` case, never `Phantom`; encoding `Phantom` writes no bytes (and
returns success). -/
theorem idOr_phantom_unreachable {T : Type} (encT : T → Bytes)
    (decT : Bytes → Except PErr (T × Bytes)) :
    (∀ buf v rest, idOrDecode decT buf = .ok (v, rest) →
      (∃ n, v = IdOr.id n) ∨ (∃ t, v = IdOr.inline t)) ∧
    idOrEncode encT (IdOr.phantom : IdOr T) = [] := by
  constructor
  · intro buf v rest h
    unfold idOrDecode at h
    cases hv : varIntDecode buf with
    | error e => rw [hv] at h; exact absurd h (by simp)
    | ok p =>
      cases p with
      | mk n r =>
        rw [hv] at h
        simp only [ebind_ok] at h
        by_cases hn : n = 0
        · rw [if_pos hn] at h
          cases hd : decT r with
          | error e => rw [hd] at h; exact absurd h (by simp)
          | ok q =>
            cases q with
            | mk t rr =>
              rw [hd] at h
              simp only [ebind_ok, Except.ok.injEq, Prod.mk.injEq] at h
              exact Or.inr ⟨t, h.1.symm⟩
        · rw [if_neg hn] at h
          simp only [Except.ok.injEq, Prod.mk.injEq] at h
          exact Or.inl ⟨wrap32 (toSigned 32 n - 1), h.1.symm⟩
  · rfl

/-- C9 witness: a concrete successful decode (`[5]`, the `Id` case). -/
theorem idOr_phantom_unreachable_witness :
    (∃ n, (IdOr.id (toSigned 32 5 - 1) : IdOr Bool) = IdOr.id n) ∨
    (∃ t, (IdOr.id (toSigned 32 5 - 1) : IdOr Bool) = IdOr.inline t) :=
  (idOr_phantom_unreachable encBool pReadBool).1 [5] _ [] (by decide)


/-- C2: lists/compounds nested to depth 512 decode successfully; nesting
to depth 513 fails with `MaxDepthExceeded`; the ceiling is the fixed
constant 512; and at the ceiling the depth guard fails for every
continuation of the input, i.e. before any further bytes are consumed. -/
theorem nbt_depth_bound :
    maxDepth = 512 ∧
    (∀ valid f, readValue valid (1025 + f) 0 .list (nest 511) =
      .ok (.list (nestVal 511), [])) ∧
    (∀ valid f, readValue valid (1025 + f) 0 .list (nest 512) =
      .error .maxDepthExceeded) ∧
    (∀ f, readValue validTrue (1536 + f) 0 .compound (cnest 511) =
      .ok (.compound (cval 511), [])) ∧
    (∀ f, readValue validTrue (1539 + f) 0 .compound (cnest 512) =
      .error .maxDepthExceeded) ∧
    (∀ valid fuel depth b, maxDepth ≤ depth →
      readValue valid (fuel + 1) depth .list b = .error .maxDepthExceeded) ∧
    (∀ valid fuel depth b, maxDepth ≤ depth →
      readValue valid (fuel + 1) depth .compound b = .error .maxDepthExceeded) := by
  refine ⟨rfl, ?_, ?_, ?_, ?_, ?_, ?_⟩
  · intro valid f
    rw [show (1025 + f) = (2 * 511 + 2 + f) + 1 from by ring]
    simp only [readValue]
    rw [if_neg (by simp [maxDepth])]
    rw [show nest 511 = nest 511 ++ [] from (List.append_nil _).symm]
    rw [nest_ok valid 511 1 f [] (by simp [maxDepth])]
    rfl
  · intro valid f
    rw [show (1025 + f) = (2 * 511 + 2 + f) + 1 from by ring]
    simp only [readValue]
    rw [if_neg (by simp [maxDepth])]
    rw [show nest 512 = nest (511 + 1) ++ [] from (List.append_nil _).symm]
    rw [nest_err valid 511 1 f [] (by simp [maxDepth])]
    rfl
  · intro f
    rw [show (1536 + f) = 3 * 511 + 3 + f from by ring]
    rw [show cnest 511 = cnest 511 ++ [] from (List.append_nil _).symm]
    exact cnest_ok validTrue rfl 511 0 f [] (by simp [maxDepth])
  · intro f
    rw [show (1539 + f) = 3 * 512 + 3 + f from by ring]
    rw [show cnest 512 = cnest 512 ++ [] from (List.append_nil _).symm]
    exact cnest_err validTrue rfl 512 0 f [] (by simp [maxDepth])
  · intro valid fuel depth b h
    simp only [readValue]
    rw [if_pos h]
  · intro valid fuel depth b h
    simp only [readValue]
    rw [if_pos h]

/-- C2 witness: at the ceiling the list guard fires on the empty
continuation buffer. -/
theorem nbt_depth_bound_witness :
    readValue validTrue 1 512 .list [] = .error .maxDepthExceeded :=
  nbt_depth_bound.2.2.2.2.2.1 validTrue 0 512 [] (by decide)


/-- C3: every length-prefixed NBT field whose i32 length is negative
fails in the spec's `LengthError` category (the `negativeLength` error),
for byte arrays, int arrays, long arrays, and lists of every element
kind — and regardless of the element reader, so no element and no
further byte is read.  A string length is an unsigned u16 read, so its
"signed interpretation" is never negative (last conjunct). -/
theorem nbt_negative_length_rejected :
    (∀ len, (NErr.negativeLength len).isLengthError = true) ∧
    (∀ b len r, readI32 b = .ok (len, r) → len < 0 →
      readByteArray b = .error (.negativeLength len) ∧
      readIntArray b = .error (.negativeLength len) ∧
      readLongArray b = .error (.negativeLength len) ∧
      (∀ (α : Type) (es : Nat) (reader : Bytes → Except NErr (α × Bytes)),
        readListPrim es reader b = .error (.negativeLength len)) ∧
      (∀ valid fuel depth, depth < maxDepth →
        readAnyList valid (fuel + 1) depth (9 :: b) =
          .error (.negativeLength len)) ∧
      (∀ valid fuel depth, depth < maxDepth →
        readAnyList valid (fuel + 1) depth (10 :: b) =
          .error (.negativeLength len))) ∧
    (∀ b len r, readU16 b = .ok (len, r) → (0 : Int) ≤ (len : Int)) := by
  refine ⟨fun _ => rfl, ?_, ?_⟩
  · intro b len r h hneg
    refine ⟨?_, ?_, ?_, ?_, ?_, ?_⟩
    · simp only [readByteArray, h, ebind_ok]
      rw [if_pos hneg]
    · simp only [readIntArray, h, ebind_ok]
      rw [if_pos hneg]
    · simp only [readLongArray, h, ebind_ok]
      rw [if_pos hneg]
    · intro α es reader
      simp only [readListPrim, h, ebind_ok]
      rw [if_pos hneg]
    · intro valid fuel depth hd
      simp only [readAnyList, readTagN, ebind_ok, h]
      rw [if_neg (show ¬ depth ≥ maxDepth by omega), if_pos hneg]
    · intro valid fuel depth hd
      simp only [readAnyList, readTagN, ebind_ok, h]
      rw [if_neg (show ¬ depth ≥ maxDepth by omega), if_pos hneg]
  · intro b len r _
    exact Int.ofNat_nonneg len

/-- C3 witness: the length bytes `FF FF FF FF` (i32 `-1`). -/
theorem nbt_negative_length_rejected_witness :
    readByteArray [255, 255, 255, 255] =
      .error (.negativeLength (toSigned 32 (beNat [255, 255, 255, 255]))) :=
  ((nbt_negative_length_rejected.2.1 [255, 255, 255, 255]
    (toSigned 32 (beNat [255, 255, 255, 255])) [] (by decide) (by decide)).1)

/-- C4: a declared length whose byte cost (`len * element_size`,
computed without overflow — here over `Nat`, matching the source's
64-bit arithmetic since `len < 2^31` and `element_size ≤ 8`) exceeds
the remaining input fails with the `lengthExceeds` error of the spec's
`LengthError` category, before any element is read (for lists this
holds for every element reader). -/
theorem nbt_truncated_length_rejected :
    (∀ len, (NErr.lengthExceeds len).isLengthError = true) ∧
    (∀ b len r, readI32 b = .ok (len, r) → 0 ≤ len →
      (len.toNat > r.length → readByteArray b = .error (.lengthExceeds len)) ∧
      (len.toNat * 4 > r.length → readIntArray b = .error (.lengthExceeds len)) ∧
      (len.toNat * 8 > r.length → readLongArray b = .error (.lengthExceeds len)) ∧
      (∀ (α : Type) (es : Nat) (reader : Bytes → Except NErr (α × Bytes)),
        len.toNat * es > r.length →
          readListPrim es reader b = .error (.lengthExceeds len))) ∧
    (∀ valid b len r, readU16 b = .ok (len, r) → len > r.length →
      readString valid b = .error (.lengthExceeds (len : Int))) := by
  refine ⟨fun _ => rfl, ?_, ?_⟩
  · intro b len r h h0
    have hnneg : ¬ len < 0 := by omega
    refine ⟨?_, ?_, ?_, ?_⟩
    · intro hgt
      simp only [readByteArray, h, ebind_ok]
      rw [if_neg hnneg, if_pos hgt]
    · intro hgt
      simp only [readIntArray, h, ebind_ok]
      rw [if_neg hnneg, if_pos hgt]
    · intro hgt
      simp only [readLongArray, h, ebind_ok]
      rw [if_neg hnneg, if_pos hgt]
    · intro α es reader hgt
      simp only [readListPrim, h, ebind_ok]
      rw [if_neg hnneg, if_pos hgt]
  · intro valid b len r h hgt
    simp only [readString, h, ebind_ok]
    rw [if_pos hgt]

/-- C4 witness: an int-array length of 2 with an empty remainder. -/
theorem nbt_truncated_length_rejected_witness :
    readIntArray [0, 0, 0, 2] = .error (.lengthExceeds 2) :=
  (nbt_truncated_length_rejected.2.1 [0, 0, 0, 2] 2 [] (by decide)
    (by decide)).2.1 (by decide)

/-- C6: a list whose element tag is End accepts only a declared length
of zero (producing the empty `List::End`); any nonzero declared length
fails with `NonZeroEndList`. -/
theorem nbt_end_list (valid : Bytes → Bool) :
    ∀ fuel depth b len r, readI32 b = .ok (len, r) →
      readAnyList valid (fuel + 1) depth (0 :: b) =
        if len = 0 then .ok (.end, r) else .error (.nonZeroEndList len) := by
  intro fuel depth b len r h
  simp only [readAnyList, readTagN, ebind_ok, h]

/-- C6 witness: End-tag lists of declared length 0 and 5. -/
theorem nbt_end_list_witness :
    readAnyList validTrue 1 0 [0, 0, 0, 0, 0] = .ok (.end, []) ∧
    readAnyList validTrue 1 0 [0, 0, 0, 0, 5] = .error (.nonZeroEndList 5) :=
  ⟨(nbt_end_list validTrue 0 0 [0, 0, 0, 0] 0 [] (by decide)).trans rfl,
   (nbt_end_list validTrue 0 0 [0, 0, 0, 5] 5 [] (by decide)).trans rfl⟩

/-- C7: after the root Compound tag, decode speculatively attempts a
length-prefixed modified-UTF-8 string read; on success that string is
the root name and decoding continues after it; on failure the root name
is `None` and decoding continues from the uncommitted cursor position. -/
theorem nbt_root_name_peek (valid : Bytes → Bool) (fuel : Nat) :
    ∀ b t r, readTagN b = .ok (t, r) → t = .compound →
      (∀ name r', readString valid r = .ok (name, r') →
        fromBinary valid fuel b =
          (readCompoundGo valid fuel 0 [] r').map fun p => ((p.1, some name), p.2)) ∧
      (∀ e, readString valid r = .error e →
        fromBinary valid fuel b =
          (readCompoundGo valid fuel 0 [] r).map fun p => ((p.1, none), p.2)) := by
  intro b t r h ht
  subst ht
  constructor
  · intro name r' hs
    simp only [fromBinary, h, ebind_ok, hs]
    rfl
  · intro e hs
    simp only [fromBinary, h, ebind_ok, hs]
    rfl

/-- C7 witness: root `[10, 0, 0]` — tag Compound then an empty root
name; the peek succeeds and decoding continues after the name. -/
theorem nbt_root_name_peek_witness :
    fromBinary validTrue 1 [10, 0, 0] =
      (readCompoundGo validTrue 1 0 [] []).map fun p => ((p.1, some []), p.2) :=
  ((nbt_root_name_peek validTrue 1 [10, 0, 0] .compound [0, 0] (by decide) rfl).1
    [] [] (by decide))


/-- C5: a Node with kind Argument, parser `Integer{min: Some(0), max:
None}` and a present suggestion encodes to a flag byte whose kind bits
are 2 and whose bit 4 is set, with bits 2 and 3 reflecting
executable/redirect presence, and decoding the encoding returns an equal
Node consuming the whole buffer. -/
theorem node_argument_roundtrip :
    ∀ (exec redir : Bool),
      (((nodeEncode
        { data := .argument (strBytes "n") (.integer (some 0) none) (some .askServer),
          executable := exec, children := [],
          redirectNode := if redir then some 7 else none }).headD 0) &&& 3 = 2) ∧
      (((nodeEncode
        { data := .argument (strBytes "n") (.integer (some 0) none) (some .askServer),
          executable := exec, children := [],
          redirectNode := if redir then some 7 else none }).headD 0) &&& 16 = 16) ∧
      ((((nodeEncode
        { data := .argument (strBytes "n") (.integer (some 0) none) (some .askServer),
          executable := exec, children := [],
          redirectNode := if redir then some 7 else none }).headD 0) &&& 4 ≠ 0) ↔
        exec = true) ∧
      ((((nodeEncode
        { data := .argument (strBytes "n") (.integer (some 0) none) (some .askServer),
          executable := exec, children := [],
          redirectNode := if redir then some 7 else none }).headD 0) &&& 8 ≠ 0) ↔
        redir = true) ∧
      nodeDecode (nodeEncode
        { data := .argument (strBytes "n") (.integer (some 0) none) (some .askServer),
          executable := exec, children := [],
          redirectNode := if redir then some 7 else none }) =
        .ok ({ data := .argument (strBytes "n") (.integer (some 0) none)
                 (some .askServer),
               executable := exec, children := [],
               redirectNode := if redir then some 7 else none }, []) := by
  intro exec redir
  cases exec <;> cases redir <;> exact (by decide)

/-- C8: a Parser discriminant byte of 48 or more fails with
`UnknownParserId`, and a Node flag byte whose kind bits are `0b11` fails
with `UnknownNodeType` (shown with the redirect bit clear so the error
is reached as soon as the children list has been decoded). -/
theorem unknown_discriminants_rejected :
    (∀ b rest, 48 ≤ b → parserDecode (b :: rest) = .error (.unknownParserId b)) ∧
    (∀ flags rest cs r2, flags &&& 3 = 3 → flags &&& 8 = 0 →
      pReadVarIntList rest = .ok (cs, r2) →
      nodeDecode (flags :: rest) = .error (.unknownNodeType 3)) := by
  constructor
  · intro b rest hb
    obtain ⟨k, rfl⟩ : ∃ k, b = k + 48 := ⟨b - 48, by omega⟩
    rfl
  · intro flags rest cs r2 h3 h8 hc
    simp only [nodeDecode, pReadU8, ebind_ok, hc, h8, h3]
    norm_num

/-- C8 witness: parser byte 48 and node flag byte 3. -/
theorem unknown_discriminants_rejected_witness :
    parserDecode [48] = .error (.unknownParserId 48) ∧
    nodeDecode [3, 0] = .error (.unknownNodeType 3) :=
  ⟨unknown_discriminants_rejected.1 48 [] (by decide),
   unknown_discriminants_rejected.2 3 [0] [] [] (by decide) (by decide) (by decide)⟩

/-- C10: when the kind bits of the flag byte are 0 (Root) or 1
(Literal), bits 4-7 are never consulted: decoding is unchanged if they
are cleared, no suggestion identifier is read, and a successful decode
yields a Root or Literal node. -/
theorem node_high_bits_ignored :
    ∀ flags rest, flags &&& 3 = 0 ∨ flags &&& 3 = 1 →
      nodeDecode (flags :: rest) = nodeDecode ((flags &&& 15) :: rest) ∧
      (∀ node r, nodeDecode (flags :: rest) = .ok (node, r) →
        node.data = .root ∨ ∃ nm, node.data = .literal nm) := by
  intro flags rest h
  have h8 : flags &&& 15 &&& 8 = flags &&& 8 := by
    rw [Nat.land_assoc, show ((15 : Nat) &&& 8) = 8 from by decide]
  have h4 : flags &&& 15 &&& 4 = flags &&& 4 := by
    rw [Nat.land_assoc, show ((15 : Nat) &&& 4) = 4 from by decide]
  have h3 : flags &&& 15 &&& 3 = flags &&& 3 := by
    rw [Nat.land_assoc, show ((15 : Nat) &&& 3) = 3 from by decide]
  constructor
  · rcases h with h0 | h0 <;>
      simp only [nodeDecode, pReadU8, ebind_ok, h8, h4, h3, h0]
  · intro node r hok
    rcases h with h0 | h0
    · simp only [nodeDecode, pReadU8, ebind_ok, h0] at hok
      cases hc : pReadVarIntList rest with
      | error e => rw [hc] at hok; exact absurd hok (by simp)
      | ok p =>
        rw [hc] at hok
        simp only [ebind_ok] at hok
        split at hok
        · cases hv : varIntDecode p.2 with
          | error e => rw [hv] at hok; exact absurd hok (by simp)
          | ok q =>
            rw [hv] at hok
            simp only [emap_ok, ebind_ok, Except.ok.injEq, Prod.mk.injEq] at hok
            exact Or.inl (by rw [← hok.1])
        · simp only [ebind_ok, Except.ok.injEq, Prod.mk.injEq] at hok
          exact Or.inl (by rw [← hok.1])
    · simp only [nodeDecode, pReadU8, ebind_ok, h0] at hok
      cases hc : pReadVarIntList rest with
      | error e => rw [hc] at hok; exact absurd hok (by simp)
      | ok p =>
        rw [hc] at hok
        simp only [ebind_ok] at hok
        split at hok
        · cases hv : varIntDecode p.2 with
          | error e => rw [hv] at hok; exact absurd hok (by simp)
          | ok q =>
            rw [hv] at hok
            simp only [emap_ok, ebind_ok] at hok
            cases hs : pReadStr q.2 with
            | error e => rw [hs] at hok; exact absurd hok (by simp)
            | ok w =>
              rw [hs] at hok
              simp only [ebind_ok, Except.ok.injEq, Prod.mk.injEq] at hok
              exact Or.inr ⟨w.1, by rw [← hok.1]⟩
        · cases hs : pReadStr p.2 with
          | error e => rw [hs] at hok; exact absurd hok (by simp)
          | ok w =>
            rw [hs] at hok
            simp only [ebind_ok, Except.ok.injEq, Prod.mk.injEq] at hok
            exact Or.inr ⟨w.1, by rw [← hok.1]⟩

/-- C10 witness: flag byte 16 (kind Root, suggestion bit set) decodes
exactly as flag byte 0 does. -/
theorem node_high_bits_ignored_witness :
    nodeDecode [16, 0] = nodeDecode [16 &&& 15, 0] :=
  (node_high_bits_ignored 16 [0] (Or.inl (by decide))).1

end Valence
